import Mathlib

/-!
Verification of the jsspacynlp client (`src/client/src`) against its
natural-language specification.

The development shallowly embeds the three relevant modules:

* `result.ts` — `parseResponse`, `allTokens`, `toVertical`, `toCSV`
  (the `LemmatizationResultImpl` methods used by the claims);
* `client.ts` — the retrying `request` method of `SpacyNLP`;
* `batch.ts` — `BatchProcessor.process` and `processStream`.

JavaScript objects holding token fields are modelled as ordered
association lists with JS property-assignment semantics (an assignment
to an existing key updates it in place, keeping its position in the
key-insertion order; an assignment to a fresh key appends it), because
`Object.keys` ordering is load-bearing for `toCSV`.  JS `undefined` is
modelled explicitly as a `Value`, and the `number` fields that the
claims reason about (`processing_time_ms`) are modelled as `ℚ`.
-/

/-! ## Definitions -/

/-- A JavaScript value stored in a token record: a string, a boolean
(for `is_`-prefixed fields), or `undefined`. -/
inductive Value where
  | str (s : String)
  | bool (b : Bool)
  | undef

deriving DecidableEq, Repr

/-- A decoded token: a JS object modelled as an insertion-ordered
association list from field name to value. -/
abbrev Token := List (String × Value)

/-- Property read `tok[k]`: the first binding of key `k`, or JS
`undefined` when the key is absent. -/
def tokGet (t : Token) (k : String) : Value :=
  match t.find? (fun p => p.1 = k) with
  | some p => p.2
  | none => Value.undef

/-- Property write `tok[k] = v` with JS semantics: update in place when
the key exists (its position in insertion order is kept), otherwise
append the new key at the end. -/
def objInsert (t : Token) (k : String) (v : Value) : Token :=
  if t.any (fun p => p.1 = k) then
    t.map (fun p => if p.1 = k then (k, v) else p)
  else
    t ++ [(k, v)]

/-- `Object.keys`: the key sequence in insertion order. -/
def tokenKeys (t : Token) : List String :=
  t.map Prod.fst

/-- The wire response of `POST /lemmatize` (`LemmatizeResponse` in
`types.ts`): field names declared once, token values positional. -/
structure LemmatizeResponse where
  annotations : List String
  tokens : List (List (List String))
  model : String
  processing_time_ms : ℚ

deriving DecidableEq, Repr

/-- A decoded document (`Document` in `types.ts`). -/
structure Document where
  tokens : List Token
  text : String

deriving DecidableEq, Repr

/-- JS `String(x)` on a token value, with `undefined` already replaced
by `''` (this is `String(value ?? '')` from `toCSV`). -/
def jsString (v : Value) : String :=
  match v with
  | .str s => s
  | .bool b => if b then "true" else "false"
  | .undef => ""

/-- JS falsiness of a token value (`''`, `false` and `undefined` are
falsy). -/
def jsFalsy (v : Value) : Bool :=
  match v with
  | .str s => s = ""
  | .bool b => !b
  | .undef => true

/-- JS `v || ''`. -/
def jsOrEmpty (v : Value) : Value :=
  if jsFalsy v then Value.str "" else v

/-- JS `Array.prototype.join`: elements are stringified, with
`undefined` rendered as the empty string. -/
def jsJoin (sep : String) (vs : List Value) : String :=
  String.intercalate sep (vs.map jsString)

/-- `s.startsWith(p)`, modelled structurally over the character data so
that it reduces in the kernel (`String.startsWith` itself is defined by
well-founded recursion on byte positions). -/
def startsWithStr (s p : String) : Bool :=
  p.data.isPrefixOf s.data

/-- The positional value assigned for field number `i` of a token:
`tokenValues[i]` is `undefined` when the value sequence is too short,
and `is_`-prefixed fields are coerced with
`value === 'true' || value === 'True'` (result.ts line 24). -/
def fieldValue (fieldName : String) (tokenValues : List String) (i : Nat) : Value :=
  let value := tokenValues.get? i
  if startsWithStr fieldName "is_" then
    Value.bool (value == some "true" || value == some "True")
  else
    match value with
    | some s => Value.str s
    | none => Value.undef

/-- One token of `parseResponse` (result.ts lines 16–31): the object is
initialised to `{ text: '', lemma: '', pos: '' }` and every field of
`annotations` is then assigned positionally. -/
def parseToken (annotations : List String) (tokenValues : List String) : Token :=
  (annotations.enum).foldl
    (fun tok p => objInsert tok p.2 (fieldValue p.2 tokenValues p.1))
    [("text", Value.str ""), ("lemma", Value.str ""), ("pos", Value.str "")]

/-- `parseResponse` (result.ts lines 10–39): decode every document's
token value sequences and rebuild the document text by joining the
tokens' `text` fields with a single space. -/
def parseResponse (response : LemmatizeResponse) : List Document :=
  response.tokens.map (fun docTokens =>
    let tokens := docTokens.map (parseToken response.annotations)
    { tokens := tokens
      text := jsJoin " " (tokens.map (fun t => tokGet t "text")) })

/-- `allTokens` (result.ts lines 53–55): flatten the documents' token
lists, document order first, within-document order second. -/
def allTokens (documents : List Document) : List Token :=
  (documents.map Document.tokens).flatten

/-- One line of `toVertical` (result.ts lines 70–76): the four fields
`text`, `lemma`, `pos || ''`, `tag || ''`, tab-joined. -/
def verticalLine (t : Token) : String :=
  jsJoin "\t"
    [tokGet t "text", tokGet t "lemma",
     jsOrEmpty (tokGet t "pos"), jsOrEmpty (tokGet t "tag")]

/-- The `lines` array built by `toVertical`'s loop (result.ts lines
62–78): for each document index `i`, push `''` when `i > 0`, then push
one line per token. -/
def verticalLines (documents : List Document) : List String :=
  documents.enum.foldl
    (fun lines p =>
      (if p.1 > 0 then lines ++ [""] else lines) ++ p.2.tokens.map verticalLine)
    []

/-- `toVertical` (result.ts lines 61–81). -/
def toVertical (response : LemmatizeResponse) : String :=
  String.intercalate "\n" (verticalLines (parseResponse response))

/-- `str.replace(/"/g, '""')`: double every double quote. -/
def doubleQuotes (s : String) : String :=
  String.mk (s.data.foldr
    (fun c acc => if c = '\"' then '\"' :: '\"' :: acc else c :: acc) [])

/-- CSV escaping (result.ts lines 95–99): wrap in double quotes, with
internal double quotes doubled, exactly when the value contains a
comma, a double quote or a newline. -/
def csvEscape (s : String) : String :=
  if s.data.contains ',' || s.data.contains '\"' || s.data.contains '\n' then
    "\"" ++ doubleQuotes s ++ "\""
  else s

/-- One data row of `toCSV` (result.ts lines 91–101): the token's
values in header order, `String(value ?? '')`, escaped, comma-joined. -/
def csvRow (headers : List String) (t : Token) : String :=
  String.intercalate "," (headers.map (fun k => csvEscape (jsString (tokGet t k))))

/-- `toCSV` (result.ts lines 83–105): empty string on zero tokens,
otherwise a header row taken from `Object.keys` of the first token
followed by one row per token. -/
def toCSV (response : LemmatizeResponse) : String :=
  match allTokens (parseResponse response) with
  | [] => ""
  | t0 :: rest =>
    let headers := tokenKeys t0
    String.intercalate "\n"
      (String.intercalate "," headers :: (t0 :: rest).map (csvRow headers))

instance {ε α : Type} [DecidableEq ε] [DecidableEq α] : DecidableEq (Except ε α) :=
  fun x y =>
    match x, y with
    | .ok a, .ok b =>
      if h : a = b then isTrue (by rw [h]) else isFalse (by simp [h])
    | .error a, .error b =>
      if h : a = b then isTrue (by rw [h]) else isFalse (by simp [h])
    | .ok _, .error _ => isFalse (by simp)
    | .error _, .ok _ => isFalse (by simp)

/-- The error envelope returned by the service on non-2xx responses
(`ErrorResponse` in `types.ts`). -/
structure ErrorResponse where
  error : Option String
  details : Option String
  available_models : Option (List String)
  available_fields : Option (List String)

deriving DecidableEq, Repr

/-- `SpacyNLPError` from `types.ts`: message, optional HTTP status code
and optional decoded error envelope. -/
structure SpacyNLPError where
  message : String
  statusCode : Option Nat
  details : Option ErrorResponse

deriving DecidableEq, Repr

/-- A thrown JS error: either a `SpacyNLPError` or any other error
(a transport-level failure from `fetch`, an abort, ...), of which only
the message is observed by `request`. -/
inductive JsError where
  | spacy (e : SpacyNLPError)
  | generic (msg : String)

deriving DecidableEq, Repr

/-- What one underlying network call produces: a transport-level
failure (`fetch` rejected — includes timeouts via abort), a response
with `response.ok` false (carrying its status, status text and decoded
error envelope), or an ok response carrying the parsed payload. -/
inductive NetOutcome (α : Type) where
  | transport (msg : String)
  | failureResponse (status : Nat) (statusText : String) (envelope : ErrorResponse)
  | successResponse (payload : α)

deriving DecidableEq, Repr

/-- JS `s || d` for the envelope's `error` field (client.ts line 66):
the fallback is used when `error` is absent or the empty string. -/
def jsOrStr (s : Option String) (d : String) : String :=
  match s with
  | some v => if v = "" then d else v
  | none => d

/-- The `SpacyNLPError` thrown for a non-ok response (client.ts lines
63–70): message `errorData.error || "HTTP <status>: <statusText>"`,
with the status code and the decoded envelope attached. -/
def mkHttpError (status : Nat) (statusText : String) (envelope : ErrorResponse) :
    SpacyNLPError :=
  { message := jsOrStr envelope.error ("HTTP " ++ toString status ++ ": " ++ statusText)
    statusCode := some status
    details := some envelope }

/-- The result of the `try` block for one attempt: the payload, or the
error that reaches the `catch` block. -/
def attemptResult {α : Type} (o : NetOutcome α) : Except JsError α :=
  match o with
  | .successResponse p => .ok p
  | .failureResponse s st env => .error (.spacy (mkHttpError s st env))
  | .transport m => .error (.generic m)

/-- The non-retry test of client.ts line 77:
`error instanceof SpacyNLPError && error.statusCode && error.statusCode < 500`
(a JS truthiness test, so an absent status code — and a zero one —
falls through to the retry path). -/
def isClientError (e : JsError) : Bool :=
  match e with
  | .spacy err => decide (err.statusCode.getD 0 ≠ 0) && decide (err.statusCode.getD 0 < 500)
  | .generic _ => false

/-- The error `request` finally throws once retries are exhausted
(client.ts lines 88–95): a `SpacyNLPError` is rethrown as is, anything
else is wrapped in a fresh `SpacyNLPError` recording the attempt count,
with no status code and no envelope. -/
def exhaustedError (attempt : Nat) (e : JsError) : SpacyNLPError :=
  match e with
  | .spacy err => err
  | .generic m =>
    { message := "Request failed after " ++ toString attempt ++ " attempts: " ++ m
      statusCode := none
      details := none }

/-- The observable trace of one `request` invocation: how many
underlying network calls were made, the backoff waits (in ms, in
order), and the final outcome. -/
structure RequestTrace (α : Type) where
  calls : Nat
  delays : List Nat
  result : Except SpacyNLPError α

deriving DecidableEq, Repr

/-- `SpacyNLP.request` (client.ts lines 37–97), from a given attempt
number on.  `net k` is what the `k`-th underlying network call
produces; `retries` is `config.retries` (the total number of attempts)
and `retryDelay` is `config.retryDelay`.  On a caught error: a 4xx
`SpacyNLPError` is rethrown at once; otherwise, while
`attempt < retries`, wait `retryDelay * 2 ^ (attempt - 1)` and retry
with `attempt + 1`; at exhaustion throw `exhaustedError`. -/
def requestFrom {α : Type} (retries retryDelay : Nat) (net : Nat → NetOutcome α)
    (attempt : Nat) : RequestTrace α :=
  match attemptResult (net attempt) with
  | .ok p => { calls := 1, delays := [], result := .ok p }
  | .error err =>
    if isClientError err then
      { calls := 1, delays := [], result := .error (exhaustedError attempt err) }
    else if h : attempt < retries then
      let d := retryDelay * 2 ^ (attempt - 1)
      let rest := requestFrom retries retryDelay net (attempt + 1)
      { calls := rest.calls + 1, delays := d :: rest.delays, result := rest.result }
    else
      { calls := 1, delays := [], result := .error (exhaustedError attempt err) }
termination_by retries - attempt

/-- A full `request` invocation starts at attempt 1 (client.ts
line 45). -/
def request {α : Type} (retries retryDelay : Nat) (net : Nat → NetOutcome α) :
    RequestTrace α :=
  requestFrom retries retryDelay net 1

/-- `Math.ceil(a / b)` on naturals (for `b > 0`). -/
def ceilDiv (a b : Nat) : Nat :=
  (a + b - 1) / b

/-- The batch processor configuration retained by the model: the model
name and the batch size (`fields` and `onProgress` are carried along by
the code but play no role in the claims under verification). -/
structure BatchConfig where
  model : String
  batchSize : Nat

deriving DecidableEq, Repr

/-- Accumulator of `process`'s loop (batch.ts lines 38–63):
`allAnnotations`, `allTokens`, `totalProcessingTime`, plus the trace of
the inputs handed to `client.lemmatize`, in call order. -/
structure ProcessState where
  allAnnotations : List String
  allTokens : List (List (List String))
  totalProcessingTime : ℚ
  calls : List (List String)

deriving DecidableEq, Repr

/-- One iteration of `process`'s loop for batch index `i` (batch.ts
lines 43–63): slice `texts.slice(i*b, min(i*b+b, len))`, call
`lemmatize` (whose response is `net i`), keep the annotations only for
the first batch, accumulate tokens and processing time. -/
def processStep (cfg : BatchConfig) (net : Nat → LemmatizeResponse)
    (texts : List String) (st : ProcessState) (i : Nat) : ProcessState :=
  let start := i * cfg.batchSize
  let stop := min (start + cfg.batchSize) texts.length
  let batch := (texts.drop start).take (stop - start)
  let response := net i
  { allAnnotations :=
      if i = 0 then st.allAnnotations ++ response.annotations else st.allAnnotations
    allTokens := st.allTokens ++ response.tokens
    totalProcessingTime := st.totalProcessingTime + response.processing_time_ms
    calls := st.calls ++ [batch] }

/-- The observable trace of one `process` invocation: the inputs of
the `lemmatize` calls it issued, in order, and its outcome (the
combined response handed to `LemmatizationResultImpl`, or the thrown
error). -/
structure ProcessTrace where
  calls : List (List String)
  result : Except JsError LemmatizeResponse

deriving DecidableEq, Repr

/-- `BatchProcessor.process` (batch.ts lines 33–74): throw on empty
input, otherwise run `Math.ceil(len/batchSize)` sequential batches and
return the combined response.  `net i` is the response of the `i`-th
(0-based) `lemmatize` call; every call is assumed to succeed, as in the
claims about successful runs. -/
def process (cfg : BatchConfig) (net : Nat → LemmatizeResponse)
    (texts : List String) : ProcessTrace :=
  if texts.length = 0 then
    { calls := [], result := .error (.generic "Cannot process empty text array") }
  else
    let totalBatches := ceilDiv texts.length cfg.batchSize
    let final := (List.range totalBatches).foldl (processStep cfg net texts)
      { allAnnotations := [], allTokens := [], totalProcessingTime := 0, calls := [] }
    { calls := final.calls
      result := .ok
        { annotations := final.allAnnotations
          tokens := final.allTokens
          model := cfg.model
          processing_time_ms := final.totalProcessingTime } }

/-- The observable trace of a fully consumed `processStream`
invocation: the `lemmatize` call inputs, the raw responses yielded (in
order; each is wrapped in a `LemmatizationResultImpl` by the code), and
the error thrown, if any. -/
structure StreamTrace where
  calls : List (List String)
  yields : List LemmatizeResponse
  thrown : Option JsError

deriving DecidableEq, Repr

/-- `BatchProcessor.processStream` (batch.ts lines 79–100), consumed to
exhaustion: throw on empty input, otherwise slice exactly as `process`
does and yield one decoded result per batch. -/
def processStream (cfg : BatchConfig) (net : Nat → LemmatizeResponse)
    (texts : List String) : StreamTrace :=
  if texts.length = 0 then
    { calls := [], yields := [], thrown := some (.generic "Cannot process empty text array") }
  else
    let totalBatches := ceilDiv texts.length cfg.batchSize
    (List.range totalBatches).foldl
      (fun st i =>
        let start := i * cfg.batchSize
        let stop := min (start + cfg.batchSize) texts.length
        let batch := (texts.drop start).take (stop - start)
        { st with
          calls := st.calls ++ [batch]
          yields := st.yields ++ [net i] })
      { calls := [], yields := [], thrown := none }

/-- Folding a list of assignments into an object, left to right (the
shape of `parseToken`'s loop). -/
def foldAssign (t : Token) (ps : List (String × Value)) : Token :=
  ps.foldl (fun tok a => objInsert tok a.1 a.2) t

/-- A token value as the specification renders it: a string stays
itself, an absent field becomes the empty string. -/
def strOrEmpty (v : Value) : String :=
  match v with
  | .str s => s
  | .bool _ => ""
  | .undef => ""

/-- A token line as §4.5 words it: exactly four tab-separated fields in
the fixed order text, lemma, part-of-speech (empty string if absent),
fine tag (empty string if absent). -/
def verticalLineSpec (t : Token) : String :=
  strOrEmpty (tokGet t "text") ++ "\t" ++ strOrEmpty (tokGet t "lemma") ++ "\t" ++
    strOrEmpty (tokGet t "pos") ++ "\t" ++ strOrEmpty (tokGet t "tag")

/-- The vertical export as §4.5 words it: per-document blocks of token
lines with exactly one blank line inserted between consecutive
documents, none before the first or after the last. -/
def toVerticalSpec (response : LemmatizeResponse) : String :=
  String.intercalate "\n"
    (List.intercalate [""]
      ((parseResponse response).map (fun d => d.tokens.map verticalLineSpec)))

/-- A retryable failure in the sense of §4.1: a transport-level failure
or a response with status ≥ 500. -/
def retryableOutcome {α : Type} (o : NetOutcome α) : Prop :=
  match o with
  | .transport _ => True
  | .failureResponse s _ _ => 500 ≤ s
  | .successResponse _ => False

/-- The error one failing attempt throws (the success arm is never
reached under `retryableOutcome`). -/
def attemptError {α : Type} (o : NetOutcome α) : JsError :=
  match o with
  | .transport m => .generic m
  | .failureResponse s st env => .spacy (mkHttpError s st env)
  | .successResponse _ => .generic ""

/-- The slice submitted for 0-based batch index `i`:
`texts.slice(i*b, min(i*b + b, len))`. -/
def batchSlice (batchSize : Nat) (texts : List String) (i : Nat) : List String :=
  (texts.drop (i * batchSize)).take (min (i * batchSize + batchSize) texts.length - i * batchSize)

/-- The header sequence `toCSV` actually produces (amended claim C1):
the initialisation keys `text`, `lemma`, `pos`, followed by the
response's remaining field names in response order. -/
def csvHeaders (annotations : List String) : List String :=
  ["text", "lemma", "pos"] ++
    annotations.filter (fun f => decide (f ∉ (["text", "lemma", "pos"] : List String)))

/-- Split a character list at every occurrence of `c` (used to count
the lines of a rendered export; structural, hence kernel-reducible). -/
def splitOnChar (c : Char) (l : List Char) : List (List Char) :=
  l.foldr
    (fun x acc =>
      match acc with
      | [] => [[x]]
      | h :: t => if x = c then [] :: h :: t else (x :: h) :: t)
    [[]]

/-- The lines of a string, splitting at every newline. -/
def linesOf (s : String) : List String :=
  (splitOnChar '\n' s.data).map String.mk

/-- Concrete three-text scenario used to witness C4. -/
def batchNetW : Nat → LemmatizeResponse :=
  fun i =>
    { annotations := ["text", "lemma"]
      tokens := [[["w", "w"]]]
      model := "en_core_web_sm"
      processing_time_ms := i + 1 }

/-- The error envelope used in the retry scenarios. -/
def c2Envelope : ErrorResponse :=
  { error := some "boom", details := none, available_models := none, available_fields := none }

/-- A network on which every call yields a 500 response. -/
def c2ServerNet : Nat → NetOutcome Nat :=
  fun _ => .failureResponse 500 "Internal Server Error" c2Envelope

/-- The `SpacyNLPError` a single 500 attempt throws on `c2ServerNet`. -/
def c2ServerError : SpacyNLPError :=
  { message := "boom", statusCode := some 500, details := some c2Envelope }

/-- The exhausted-retries error as the specification describes it (§7:
an error that wraps the last Transport/ServerError once `maxAttempts`
is reached).  In the code the only error of this shape is the
`Request failed after N attempts` error of client.ts lines 93–95, which
records the attempt count and carries neither status code nor
envelope. -/
def exhaustedRetriesWrapper (attempts : Nat) (e : SpacyNLPError) : SpacyNLPError :=
  { message := "Request failed after " ++ toString attempts ++ " attempts: " ++ e.message
    statusCode := none
    details := none }

/-- A network that always fails at the transport level. -/
def c2TransportNet : Nat → NetOutcome Nat :=
  fun _ => .transport "ECONNREFUSED"

/-- A network that fails twice at the transport level, then succeeds. -/
def c6Net : Nat → NetOutcome Nat :=
  fun k => if k = 1 then .transport "e1" else if k = 2 then .transport "e2"
    else .successResponse 42

/-- An envelope with structured details, as a 400 response carries. -/
def c7Envelope : ErrorResponse :=
  { error := some "Unknown model"
    details := some "model not loaded"
    available_models := some ["en_core_web_sm"]
    available_fields := none }

/-- A network whose every call is answered with a 400 response. -/
def c7Net : Nat → NetOutcome Nat :=
  fun _ => .failureResponse 400 "Bad Request" c7Envelope

/-- The response of the specification's decode example. -/
def c8Input : LemmatizeResponse :=
  { annotations := ["text", "lemma", "is_stop"]
    tokens := [[["Run", "run", "true"]]]
    model := "en_core_web_sm"
    processing_time_ms := 0 }

/-- A response that declares neither `text` nor `pos`. -/
def c10Input : LemmatizeResponse :=
  { annotations := ["lemma"]
    tokens := [[["walk"]]]
    model := "en_core_web_sm"
    processing_time_ms := 0 }

/-- Two one-token documents, for the 3-line scenario of C9. -/
def c9Input : LemmatizeResponse :=
  { annotations := ["text", "lemma"]
    tokens := [[["Hello", "hello"]], [["Testing", "test"]]]
    model := "en_core_web_sm"
    processing_time_ms := 0 }

/-- A response whose field list starts with `lemma`, not `text`. -/
def c1Input : LemmatizeResponse :=
  { annotations := ["lemma", "is_stop"]
    tokens := [[["run", "true"]]]
    model := "en_core_web_sm"
    processing_time_ms := 0 }

/-- A response containing all three pre-initialised fields plus one
boolean field. -/
def c1WitnessInput : LemmatizeResponse :=
  { annotations := ["text", "lemma", "is_stop"]
    tokens := [[["Running", "run", "True"]]]
    model := "en_core_web_sm"
    processing_time_ms := 0 }

/-! ## Theorems -/

/-- The membership test used by `objInsert` agrees with membership in
`Object.keys`. -/
theorem any_key_eq_mem (t : Token) (k : String) :
    t.any (fun p => p.1 = k) = true ↔ k ∈ tokenKeys t := by
  simp [tokenKeys, List.any_eq_true, List.mem_map]

/-- Assigning a key leaves `Object.keys` unchanged when the key is
already present und appends it otherwise. -/
theorem tokenKeys_objInsert (t : Token) (k : String) (v : Value) :
    tokenKeys (objInsert t k v) =
      if k ∈ tokenKeys t then tokenKeys t else tokenKeys t ++ [k] := by
  unfold objInsert
  by_cases hmem : k ∈ tokenKeys t
  · rw [if_pos ((any_key_eq_mem t k).mpr hmem), if_pos hmem]
    unfold tokenKeys
    rw [List.map_map]
    apply List.map_congr_left
    intro p _
    by_cases hp : p.1 = k
    · simp [hp]
    · simp [hp]
  · rw [if_neg (fun h => hmem ((any_key_eq_mem t k).mp h)), if_neg hmem]
    simp [tokenKeys]

/-- Reading a key right after assigning it yields the assigned value. -/
theorem tokGet_objInsert_self (t : Token) (k : String) (v : Value) :
    tokGet (objInsert t k v) k = v := by
  unfold objInsert tokGet
  by_cases hany : t.any (fun p => p.1 = k) = true
  · rw [if_pos hany, List.find?_map]
    have hpred : ∀ p : String × Value,
        (fun q : String × Value => decide (q.1 = k)) ((fun p => if p.1 = k then (k, v) else p) p) =
          decide (p.1 = k) := by
      intro p
      by_cases hp : p.1 = k
      · simp [hp]
      · simp [hp]
    rw [show ((fun q : String × Value => decide (q.1 = k)) ∘
          (fun p => if p.1 = k then (k, v) else p)) = (fun p : String × Value => decide (p.1 = k))
        from funext hpred]
    rcases List.any_eq_true.mp hany with ⟨p, hp, hpk⟩
    have hsome : (t.find? (fun p : String × Value => decide (p.1 = k))).isSome := by
      rw [List.find?_isSome]
      exact ⟨p, hp, hpk⟩
    rcases Option.isSome_iff_exists.mp hsome with ⟨q, hq⟩
    have hqk : q.1 = k :=
      of_decide_eq_true (List.find?_some (p := fun p : String × Value => decide (p.1 = k)) hq)
    rw [hq]
    simp [hqk]
  · rw [if_neg hany, List.find?_append]
    have hnone : t.find? (fun p : String × Value => decide (p.1 = k)) = none := by
      rw [List.find?_eq_none]
      intro p hp hpk
      exact hany (List.any_eq_true.mpr ⟨p, hp, hpk⟩)
    rw [hnone]
    simp

/-- Reading a different key is unaffected by an assignment. -/
theorem tokGet_objInsert_ne (t : Token) (k k' : String) (v : Value) (hne : k' ≠ k) :
    tokGet (objInsert t k v) k' = tokGet t k' := by
  unfold objInsert tokGet
  by_cases hany : t.any (fun p => p.1 = k) = true
  · rw [if_pos hany, List.find?_map]
    have hpred : ((fun q : String × Value => decide (q.1 = k')) ∘
        (fun p => if p.1 = k then (k, v) else p)) = (fun p : String × Value => decide (p.1 = k')) := by
      funext p
      by_cases hp : p.1 = k
      · simp [hp, hne.symm, Ne.symm hne]
      · simp [hp]
    rw [hpred]
    cases hfind : t.find? (fun p : String × Value => decide (p.1 = k')) with
    | none => simp
    | some q =>
      have hqk : q.1 = k' :=
        of_decide_eq_true (List.find?_some (p := fun p : String × Value => decide (p.1 = k')) hfind)
      have : (if q.1 = k then (k, v) else q) = q := by
        rw [if_neg]
        rw [hqk]
        exact hne
      simp [this]
  · rw [if_neg hany, List.find?_append]
    cases hfind : t.find? (fun p : String × Value => decide (p.1 = k')) with
    | none => simp [Ne.symm hne]
    | some q => simp

/-- `parseToken` is `foldAssign` over the positional assignment list of
the response. -/
theorem parseToken_eq_foldAssign (annotations tokenValues : List String) :
    parseToken annotations tokenValues =
      foldAssign [("text", Value.str ""), ("lemma", Value.str ""), ("pos", Value.str "")]
        (annotations.enum.map (fun p => (p.2, fieldValue p.2 tokenValues p.1))) := by
  unfold parseToken foldAssign
  rw [List.foldl_map]

/-- A key none of the assignments touches keeps its original value. -/
theorem tokGet_foldAssign_not_mem (ps : List (String × Value)) (t : Token) (k : String)
    (h : k ∉ ps.map Prod.fst) : tokGet (foldAssign t ps) k = tokGet t k := by
  induction ps generalizing t with
  | nil => rfl
  | cons a ps ih =>
    have hk : k ≠ a.1 := by
      intro hk
      exact h (by simp [hk])
    have hrest : k ∉ ps.map Prod.fst := by
      intro hmem
      exact h (by simp [hmem])
    rw [show foldAssign t (a :: ps) = foldAssign (objInsert t a.1 a.2) ps from rfl,
      ih _ hrest, tokGet_objInsert_ne _ _ _ _ hk]

/-- With pairwise distinct assignment keys, reading any assigned key
after the fold yields exactly its assigned value. -/
theorem tokGet_foldAssign_mem (ps : List (String × Value)) (t : Token) (k : String) (v : Value)
    (hnd : (ps.map Prod.fst).Nodup) (hmem : (k, v) ∈ ps) :
    tokGet (foldAssign t ps) k = v := by
  induction ps generalizing t with
  | nil => cases hmem
  | cons a ps ih =>
    rw [List.map_cons, List.nodup_cons] at hnd
    rcases List.mem_cons.mp hmem with heq | hrest
    · have hnot : k ∉ ps.map Prod.fst := by
        rw [← heq] at hnd
        exact hnd.1
      rw [show foldAssign t (a :: ps) = foldAssign (objInsert t a.1 a.2) ps from rfl,
        tokGet_foldAssign_not_mem _ _ _ hnot, ← heq, tokGet_objInsert_self]
    · exact ih _ hnd.2 hrest

/-- `Object.keys` after the fold: the original keys, followed by the
fresh assignment keys in first-assignment order. -/
theorem tokenKeys_foldAssign (ps : List (String × Value)) (t : Token)
    (hnd : (ps.map Prod.fst).Nodup) :
    tokenKeys (foldAssign t ps) =
      tokenKeys t ++ (ps.map Prod.fst).filter (fun f => decide (f ∉ tokenKeys t)) := by
  induction ps generalizing t with
  | nil => simp [foldAssign]
  | cons a ps ih =>
    rw [List.map_cons, List.nodup_cons] at hnd
    rw [show foldAssign t (a :: ps) = foldAssign (objInsert t a.1 a.2) ps from rfl,
      ih _ hnd.2, tokenKeys_objInsert]
    by_cases hmem : a.1 ∈ tokenKeys t
    · rw [if_pos hmem, List.map_cons, List.filter_cons]
      simp [hmem]
    · rw [if_neg hmem, List.map_cons, List.filter_cons]
      have hfilter : (ps.map Prod.fst).filter (fun f => decide (f ∉ tokenKeys t ++ [a.1])) =
          (ps.map Prod.fst).filter (fun f => decide (f ∉ tokenKeys t)) := by
        apply List.filter_congr
        intro f hf
        have hfa : f ≠ a.1 := by
          intro hfa
          rw [hfa] at hf
          exact hnd.1 hf
        simp [List.mem_append, hfa]
      rw [hfilter]
      simp [hmem, List.append_assoc]

/-- Keys are never removed by the fold. -/
theorem mem_tokenKeys_foldAssign (ps : List (String × Value)) (t : Token) (k : String)
    (h : k ∈ tokenKeys t) : k ∈ tokenKeys (foldAssign t ps) := by
  induction ps generalizing t with
  | nil => exact h
  | cons a ps ih =>
    rw [show foldAssign t (a :: ps) = foldAssign (objInsert t a.1 a.2) ps from rfl]
    apply ih
    rw [tokenKeys_objInsert]
    by_cases hmem : a.1 ∈ tokenKeys t
    · rwa [if_pos hmem]
    · rw [if_neg hmem]
      exact List.mem_append_left _ h

/-- Everything in an object after an assignment is either the assigned
binding or an original binding. -/
theorem mem_objInsert (t : Token) (k : String) (v : Value) (p : String × Value)
    (h : p ∈ objInsert t k v) : p = (k, v) ∨ p ∈ t := by
  unfold objInsert at h
  by_cases hany : t.any (fun p => p.1 = k) = true
  · rw [if_pos hany] at h
    rcases List.mem_map.mp h with ⟨q, hq, hfq⟩
    by_cases hqk : q.1 = k
    · left
      rw [← hfq, if_pos hqk]
    · right
      rw [← hfq, if_neg hqk]
      exact hq
  · rw [if_neg hany] at h
    rcases List.mem_append.mp h with hmem | hmem
    · exact Or.inr hmem
    · exact Or.inl (List.mem_singleton.mp hmem)

/-- Invariant preserved by the assignment fold: if every assigned value
that is a boolean sits under an `is_`-prefixed key, and the same holds
of the initial object, it holds of the result. -/
theorem foldAssign_bool_only_is (ps : List (String × Value)) (t : Token)
    (hps : ∀ a ∈ ps, ∀ b, a.2 = Value.bool b → startsWithStr a.1 "is_" = true)
    (ht : ∀ p ∈ t, ∀ b, p.2 = Value.bool b → startsWithStr p.1 "is_" = true) :
    ∀ p ∈ foldAssign t ps, ∀ b, p.2 = Value.bool b → startsWithStr p.1 "is_" = true := by
  induction ps generalizing t with
  | nil => exact ht
  | cons a ps ih =>
    intro p hp b hb
    refine ih (objInsert t a.1 a.2) (fun q hq => hps q (List.mem_cons_of_mem _ hq)) ?_ p hp b hb
    intro q hq b' hb'
    rcases mem_objInsert t a.1 a.2 q hq with heq | hmem
    · rw [heq]
      rw [heq] at hb'
      exact hps a (List.mem_cons_self _ _) b' hb'
    · exact ht q hmem b' hb'

/-- A non-`is_` field never receives a boolean value. -/
theorem fieldValue_not_bool (fieldName : String) (tokenValues : List String) (i : Nat)
    (h : startsWithStr fieldName "is_" = false) (b : Bool) :
    fieldValue fieldName tokenValues i ≠ Value.bool b := by
  unfold fieldValue
  rw [h]
  simp only [Bool.false_eq_true, if_false]
  cases tokenValues.get? i with
  | none => simp
  | some s => simp

/-- In a decoded token, a boolean can only sit under an `is_`-prefixed
key; in particular `text`, `lemma`, `pos` and `tag` are never
booleans. -/
theorem tokGet_parseToken_not_bool (annotations tokenValues : List String) (k : String)
    (hk : startsWithStr k "is_" = false) (b : Bool) :
    tokGet (parseToken annotations tokenValues) k ≠ Value.bool b := by
  rw [parseToken_eq_foldAssign]
  intro hget
  unfold tokGet at hget
  cases hfind : (foldAssign [("text", Value.str ""), ("lemma", Value.str ""), ("pos", Value.str "")]
      (annotations.enum.map (fun p => (p.2, fieldValue p.2 tokenValues p.1)))).find?
      (fun p : String × Value => decide (p.1 = k)) with
  | none => rw [hfind] at hget; cases hget
  | some q =>
    rw [hfind] at hget
    have hqk : q.1 = k :=
      of_decide_eq_true (List.find?_some (p := fun p : String × Value => decide (p.1 = k)) hfind)
    have hqmem := List.mem_of_find?_eq_some hfind
    have hbool := foldAssign_bool_only_is _ _
      (fun a ha b' hb' => ?_) (fun p hp b' hb' => by simp at hp; rcases hp with h | h | h <;> simp [h] at hb')
      q hqmem b hget
    · rw [hqk] at hbool
      rw [hbool] at hk
      cases hk
    · rcases List.mem_map.mp ha with ⟨e, _, hea⟩
      have : a.2 = fieldValue a.1 tokenValues e.1 := by
        rw [← hea]
      rw [this] at hb'
      by_cases hs : startsWithStr a.1 "is_" = true
      · exact hs
      · exact absurd hb' (fieldValue_not_bool _ _ _ (Bool.not_eq_true _ ▸ eq_false_of_ne_true hs) b')

/-- The assignment keys of `parseToken`'s loop are exactly the
response's field names, in order. -/
theorem assign_keys_eq (annotations tokenValues : List String) :
    ((annotations.enum.map (fun p => (p.2, fieldValue p.2 tokenValues p.1))).map Prod.fst) =
      annotations := by
  rw [List.map_map]
  have : (Prod.fst ∘ fun p : Nat × String => (p.2, fieldValue p.2 tokenValues p.1)) =
      Prod.snd := by
    funext p
    rfl
  rw [this, List.enum_map_snd]

/-- Positional decode of a single field: with pairwise distinct field
names, the decoded token's value under field `f` (the `i`-th name) is
the boolean coercion of `tokenValues[i]` for `is_`-prefixed `f`, and
`tokenValues[i]` itself otherwise. -/
theorem tokGet_parseToken (annotations tokenValues : List String) (i : Nat) (f v : String)
    (hnd : annotations.Nodup) (hf : annotations.get? i = some f)
    (hv : tokenValues.get? i = some v) :
    tokGet (parseToken annotations tokenValues) f =
      if startsWithStr f "is_" then Value.bool (v == "true" || v == "True")
      else Value.str v := by
  rw [parseToken_eq_foldAssign]
  have henum : annotations.enum.get? i = some (i, f) := by
    rw [List.get?_eq_getElem?]
    rw [show annotations.enum = annotations.enumFrom 0 from rfl, List.getElem?_enumFrom]
    rw [← List.get?_eq_getElem?, hf]
    simp
  have hmem : (f, fieldValue f tokenValues i) ∈
      annotations.enum.map (fun p => (p.2, fieldValue p.2 tokenValues p.1)) := by
    have : (i, f) ∈ annotations.enum := List.get?_mem henum
    exact List.mem_map_of_mem _ this
  rw [tokGet_foldAssign_mem _ _ _ _ (by rw [assign_keys_eq]; exact hnd) hmem]
  unfold fieldValue
  rw [hv]
  by_cases hs : startsWithStr f "is_" = true
  · simp [hs]
  · simp [hs]

/-- `Object.keys` of any decoded token: the initial `text`, `lemma`,
`pos` (in this order), followed by the remaining field names of the
response, in response order. -/
theorem tokenKeys_parseToken (annotations tokenValues : List String)
    (hnd : annotations.Nodup) :
    tokenKeys (parseToken annotations tokenValues) =
      ["text", "lemma", "pos"] ++
        annotations.filter (fun f => decide (f ∉ (["text", "lemma", "pos"] : List String))) := by
  rw [parseToken_eq_foldAssign, tokenKeys_foldAssign _ _ (by rw [assign_keys_eq]; exact hnd),
    assign_keys_eq]
  rfl

/-- The decoded tokens are exactly the positional decodes of the
response's token value sequences. -/
theorem mem_allTokens (response : LemmatizeResponse) (t : Token) :
    t ∈ allTokens (parseResponse response) ↔
      ∃ docTokens ∈ response.tokens, ∃ tokenValues ∈ docTokens,
        t = parseToken response.annotations tokenValues := by
  simp only [allTokens, parseResponse, List.map_map, List.mem_flatten, List.mem_map]
  constructor
  · rintro ⟨l, ⟨docTokens, hdoc, hl⟩, hmem⟩
    refine ⟨docTokens, hdoc, ?_⟩
    rw [← hl] at hmem
    simp only [Function.comp_apply] at hmem
    rcases List.mem_map.mp hmem with ⟨tv, htv, hparse⟩
    exact ⟨tv, htv, hparse.symm⟩
  · rintro ⟨docTokens, hdoc, tv, htv, rfl⟩
    refine ⟨docTokens.map (parseToken response.annotations), ⟨docTokens, hdoc, rfl⟩, ?_⟩
    exact List.mem_map_of_mem _ htv

/-- Intercalating a separator block is prepending it to every block
but the first. -/
theorem intercalate_cons {α : Type} (sep : List α) (x : List α) (xs : List (List α)) :
    List.intercalate sep (x :: xs) = x ++ (xs.map (fun y => sep ++ y)).flatten := by
  induction xs generalizing x with
  | nil => simp [List.intercalate]
  | cons y t ih =>
    have hy := ih y
    simp only [List.intercalate] at hy ⊢
    simp only [List.intersperse_cons₂, List.flatten_cons]
    rw [hy]
    simp [List.append_assoc]

/-- The tail of `toVertical`'s loop (every document index positive):
each document contributes a blank separator line and its token lines. -/
theorem verticalLines_foldl_from (documents : List Document) (n : Nat) (acc : List String)
    (hn : 1 ≤ n) :
    (documents.enumFrom n).foldl
        (fun lines p =>
          (if p.1 > 0 then lines ++ [""] else lines) ++ p.2.tokens.map verticalLine) acc =
      acc ++ (documents.map (fun d => "" :: d.tokens.map verticalLine)).flatten := by
  induction documents generalizing n acc with
  | nil => simp
  | cons d rest ih =>
    rw [List.enumFrom_cons, List.foldl_cons]
    have hpos : n > 0 := hn
    rw [if_pos hpos, ih (n + 1) _ (Nat.le_succ_of_le hn)]
    simp [List.append_assoc]

/-- The `lines` array of `toVertical` is the blocks of token lines
joined with single blank separator lines. -/
theorem verticalLines_eq_intercalate (documents : List Document) :
    verticalLines documents =
      List.intercalate [""] (documents.map (fun d => d.tokens.map verticalLine)) := by
  unfold verticalLines
  cases documents with
  | nil => simp [List.intercalate]
  | cons d rest =>
    rw [List.enum_cons, List.foldl_cons]
    simp only [gt_iff_lt, Nat.lt_irrefl, if_false]
    rw [verticalLines_foldl_from rest 1 _ (Nat.le_refl 1), List.map_cons, intercalate_cons]
    simp [Function.comp_def]

/-- `String.intercalate` over a literal four-element list. -/
theorem intercalate_four (sep w x y z : String) :
    String.intercalate sep [w, x, y, z] = w ++ sep ++ x ++ sep ++ y ++ sep ++ z := rfl

/-- `String(v || '')` agrees with the specification's rendering on
every non-boolean value. -/
theorem jsString_jsOrEmpty (v : Value) (h : ∀ b, v ≠ Value.bool b) :
    jsString (jsOrEmpty v) = strOrEmpty v := by
  cases v with
  | str s =>
    unfold jsOrEmpty jsFalsy jsString strOrEmpty
    by_cases hs : s = ""
    · simp [hs]
    · simp [hs]
  | bool b => exact absurd rfl (h b)
  | undef => rfl

/-- `String(v)` agrees with the specification's rendering on every
non-boolean value. -/
theorem jsString_eq_strOrEmpty (v : Value) (h : ∀ b, v ≠ Value.bool b) :
    jsString v = strOrEmpty v := by
  cases v with
  | str s => rfl
  | bool b => exact absurd rfl (h b)
  | undef => rfl

/-- On every decoded token the code's vertical line coincides with the
specification's four-field line. -/
theorem verticalLine_parseToken (annotations tokenValues : List String) :
    verticalLine (parseToken annotations tokenValues) =
      verticalLineSpec (parseToken annotations tokenValues) := by
  unfold verticalLine verticalLineSpec jsJoin
  rw [List.map_cons, List.map_cons, List.map_cons, List.map_cons, List.map_nil,
    intercalate_four]
  rw [jsString_eq_strOrEmpty _ (tokGet_parseToken_not_bool _ _ "text" rfl),
    jsString_eq_strOrEmpty _ (tokGet_parseToken_not_bool _ _ "lemma" rfl),
    jsString_jsOrEmpty _ (tokGet_parseToken_not_bool _ _ "pos" rfl),
    jsString_jsOrEmpty _ (tokGet_parseToken_not_bool _ _ "tag" rfl)]

/-- When every attempt from `attempt` up to `retries` fails retryably,
the run makes one call per remaining attempt and ends with
`exhaustedError` applied to the last attempt's failure. -/
theorem requestFrom_exhausted {α : Type} (retries retryDelay : Nat) (net : Nat → NetOutcome α) :
    ∀ (n attempt : Nat), attempt + n = retries → 1 ≤ attempt →
      (∀ k, attempt ≤ k → k ≤ retries → retryableOutcome (net k)) →
      (requestFrom retries retryDelay net attempt).calls = n + 1 ∧
      (requestFrom retries retryDelay net attempt).result =
        .error (exhaustedError retries (attemptError (net retries))) := by
  intro n
  induction n with
  | zero =>
    intro attempt htot hge hall
    have hat : attempt = retries := by omega
    subst hat
    have hretry := hall attempt (Nat.le_refl _) (Nat.le_refl _)
    rw [requestFrom.eq_def]
    cases houtcome : net attempt with
    | transport m =>
      simp [attemptResult, isClientError, attemptError, Nat.lt_irrefl]
    | failureResponse s st env =>
      rw [houtcome] at hretry
      unfold retryableOutcome at hretry
      have hs5 : ¬s < 500 := by omega
      simp [attemptResult, isClientError, attemptError, mkHttpError, Nat.lt_irrefl, hs5]
    | successResponse p =>
      rw [houtcome] at hretry
      exact absurd hretry (by simp [retryableOutcome])
  | succ m ih =>
    intro attempt htot hge hall
    have hlt : attempt < retries := by omega
    have hrest := ih (attempt + 1) (by omega) (by omega)
      (fun k hk1 hk2 => hall k (by omega) hk2)
    have hretry := hall attempt (Nat.le_refl _) (by omega)
    rw [requestFrom.eq_def]
    cases houtcome : net attempt with
    | transport msg =>
      simp only [attemptResult, isClientError, Bool.false_eq_true, if_false, hlt, dif_pos]
      exact ⟨by rw [hrest.1], hrest.2⟩
    | failureResponse s st env =>
      rw [houtcome] at hretry
      unfold retryableOutcome at hretry
      have hs5 : ¬s < 500 := by omega
      simp only [attemptResult, isClientError, mkHttpError, Option.getD_some, decide_eq_true_eq,
        hs5, decide_False, Bool.and_false, Bool.false_eq_true, if_false, hlt, dif_pos]
      exact ⟨by rw [hrest.1], hrest.2⟩
    | successResponse p =>
      rw [houtcome] at hretry
      exact absurd hretry (by simp [retryableOutcome])

/-- The call trace accumulated by `process`'s loop. -/
theorem processFold_calls (cfg : BatchConfig) (net : Nat → LemmatizeResponse)
    (texts : List String) (l : List Nat) (st : ProcessState) :
    (l.foldl (processStep cfg net texts) st).calls =
      st.calls ++ l.map (batchSlice cfg.batchSize texts) := by
  induction l generalizing st with
  | nil => simp
  | cons i l ih =>
    rw [List.foldl_cons, ih, List.map_cons]
    simp [processStep, batchSlice, List.append_assoc]

/-- The tokens accumulated by `process`'s loop. -/
theorem processFold_tokens (cfg : BatchConfig) (net : Nat → LemmatizeResponse)
    (texts : List String) (l : List Nat) (st : ProcessState) :
    (l.foldl (processStep cfg net texts) st).allTokens =
      st.allTokens ++ (l.map (fun i => (net i).tokens)).flatten := by
  induction l generalizing st with
  | nil => simp
  | cons i l ih =>
    rw [List.foldl_cons, ih, List.map_cons, List.flatten_cons]
    simp [processStep, List.append_assoc]

/-- The processing time accumulated by `process`'s loop. -/
theorem processFold_time (cfg : BatchConfig) (net : Nat → LemmatizeResponse)
    (texts : List String) (l : List Nat) (st : ProcessState) :
    (l.foldl (processStep cfg net texts) st).totalProcessingTime =
      st.totalProcessingTime + (l.map (fun i => (net i).processing_time_ms)).sum := by
  induction l generalizing st with
  | nil => simp
  | cons i l ih =>
    rw [List.foldl_cons, ih, List.map_cons, List.sum_cons]
    simp [processStep, add_assoc]

/-- Batches after the first never touch the aggregate's annotations. -/
theorem processFold_annotations_ne_zero (cfg : BatchConfig) (net : Nat → LemmatizeResponse)
    (texts : List String) (l : List Nat) (st : ProcessState) (h : ∀ i ∈ l, i ≠ 0) :
    (l.foldl (processStep cfg net texts) st).allAnnotations = st.allAnnotations := by
  induction l generalizing st with
  | nil => rfl
  | cons i l ih =>
    rw [List.foldl_cons, ih _ (fun j hj => h j (List.mem_cons_of_mem _ hj))]
    simp [processStep, h i (List.mem_cons_self _ _)]

/-- The aggregate's annotations are the first batch's annotations. -/
theorem processFold_annotations (cfg : BatchConfig) (net : Nat → LemmatizeResponse)
    (texts : List String) (n : Nat) :
    ((List.range (n + 1)).foldl (processStep cfg net texts)
        { allAnnotations := [], allTokens := [], totalProcessingTime := 0, calls := [] }).allAnnotations =
      (net 0).annotations := by
  rw [List.range_succ_eq_map, List.foldl_cons]
  rw [processFold_annotations_ne_zero _ _ _ _ _ (by simp)]
  simp [processStep]

/-- With a positive batch size and nonempty input, at least one batch
runs. -/
theorem ceilDiv_pos (len b : Nat) (hlen : 1 ≤ len) (hb : 1 ≤ b) : 1 ≤ ceilDiv len b := by
  unfold ceilDiv
  rw [Nat.le_div_iff_mul_le hb]
  omega

/-- C3: `process([])` and `processStream([])` both fail with the
validation error (`Cannot process empty text array`) and issue no
network call at all. -/
theorem c3_empty_input_validation (cfg : BatchConfig) (net : Nat → LemmatizeResponse) :
    process cfg net [] =
      { calls := [], result := .error (.generic "Cannot process empty text array") } ∧
    processStream cfg net [] =
      { calls := [], yields := [],
        thrown := some (.generic "Cannot process empty text array") } :=
  ⟨rfl, rfl⟩

/-- C4: for nonempty `texts` and positive batch size `b`, `process`
issues exactly `ceil(len/b)` lemmatize calls, the `k`-th (0-based)
call's input being `texts.slice(k*b, min((k+1)*b, len))`, in call
order. -/
theorem c4_process_slicing (cfg : BatchConfig) (net : Nat → LemmatizeResponse)
    (texts : List String) (hne : texts ≠ []) (hb : 0 < cfg.batchSize) :
    (process cfg net texts).calls.length = ceilDiv texts.length cfg.batchSize ∧
    ∀ k, k < ceilDiv texts.length cfg.batchSize →
      (process cfg net texts).calls.get? k =
        some ((texts.drop (k * cfg.batchSize)).take
          (min ((k + 1) * cfg.batchSize) texts.length - k * cfg.batchSize)) := by
  have hlen : ¬texts.length = 0 := fun h => hne (List.length_eq_zero.mp h)
  unfold process
  rw [if_neg hlen]
  constructor
  · simp [processFold_calls]
  · intro k hk
    simp only [processFold_calls, List.nil_append, List.get?_map, List.get?_range hk,
      Option.map_some]
    unfold batchSlice
    rw [Nat.succ_mul]
    rfl

/-- C5: on a successful run, the aggregate keeps the first batch's
`annotations`, concatenates the per-batch token lists in batch order
(so the aggregate token count is the sum of the per-batch counts), and
sums the per-batch processing times. -/
theorem c5_process_aggregate (cfg : BatchConfig) (net : Nat → LemmatizeResponse)
    (texts : List String) (hne : texts ≠ []) (hb : 0 < cfg.batchSize) :
    (process cfg net texts).result = .ok
      { annotations := (net 0).annotations
        tokens := ((List.range (ceilDiv texts.length cfg.batchSize)).map
          (fun i => (net i).tokens)).flatten
        model := cfg.model
        processing_time_ms := ((List.range (ceilDiv texts.length cfg.batchSize)).map
          (fun i => (net i).processing_time_ms)).sum } ∧
    (((List.range (ceilDiv texts.length cfg.batchSize)).map
        (fun i => (net i).tokens)).flatten).length =
      ((List.range (ceilDiv texts.length cfg.batchSize)).map
        (fun i => (net i).tokens.length)).sum := by
  have hlen : ¬texts.length = 0 := fun h => hne (List.length_eq_zero.mp h)
  have hpos : 1 ≤ ceilDiv texts.length cfg.batchSize :=
    ceilDiv_pos _ _ (by cases texts with
      | nil => exact absurd rfl hne
      | cons x xs => simp) hb
  constructor
  · unfold process
    rw [if_neg hlen]
    simp only []
    rcases Nat.exists_eq_add_of_le hpos with ⟨m, hm⟩
    rw [show ceilDiv texts.length cfg.batchSize = m + 1 by omega]
    rw [processFold_tokens, processFold_time, processFold_annotations]
    simp
  · rw [List.length_flatten, List.map_map]
    rfl

theorem c4_process_slicing_witness :
    (process { model := "en_core_web_sm", batchSize := 2 } batchNetW ["a", "b", "c"]).calls.length =
      ceilDiv (["a", "b", "c"] : List String).length 2 ∧
    ∀ k, k < ceilDiv (["a", "b", "c"] : List String).length 2 →
      (process { model := "en_core_web_sm", batchSize := 2 } batchNetW ["a", "b", "c"]).calls.get? k =
        some (((["a", "b", "c"] : List String).drop (k * 2)).take
          (min ((k + 1) * 2) (["a", "b", "c"] : List String).length - k * 2)) :=
  c4_process_slicing { model := "en_core_web_sm", batchSize := 2 } batchNetW ["a", "b", "c"]
    (by decide) (by decide)

theorem c5_process_aggregate_witness :
    (process { model := "en_core_web_sm", batchSize := 2 } batchNetW ["x", "y", "z"]).result = .ok
      { annotations := (batchNetW 0).annotations
        tokens := ((List.range (ceilDiv (["x", "y", "z"] : List String).length 2)).map
          (fun i => (batchNetW i).tokens)).flatten
        model := "en_core_web_sm"
        processing_time_ms := ((List.range (ceilDiv (["x", "y", "z"] : List String).length 2)).map
          (fun i => (batchNetW i).processing_time_ms)).sum } ∧
    (((List.range (ceilDiv (["x", "y", "z"] : List String).length 2)).map
        (fun i => (batchNetW i).tokens)).flatten).length =
      ((List.range (ceilDiv (["x", "y", "z"] : List String).length 2)).map
        (fun i => (batchNetW i).tokens.length)).sum :=
  c5_process_aggregate { model := "en_core_web_sm", batchSize := 2 } batchNetW ["x", "y", "z"]
    (by decide) (by decide)

/-- C2: counterexample — with `retries = 2` and every attempt failing
with a retryable 500 response, the operation makes 2 calls but fails
with the last server error itself, unchanged; it is not wrapped in an
exhausted-retries error. -/
theorem c2_counterexample :
    request 2 1 c2ServerNet = { calls := 2, delays := [1], result := .error c2ServerError } ∧
    c2ServerError ≠ exhaustedRetriesWrapper 2 c2ServerError := by
  constructor
  · simp [request, requestFrom, c2ServerNet, attemptResult, mkHttpError, jsOrStr,
      isClientError, exhaustedError, c2Envelope, c2ServerError]
  · decide

/-- C2 (amended): when all `retries` attempts fail retryably, the
operation makes exactly `retries` calls; if the last failure is a
transport failure, it fails with a fresh exhausted-retries error whose
message records the attempt count and wraps the transport failure's
message; but if the last failure is a 5xx response, the last server
error is rethrown unchanged, with no exhausted-retries wrapper. -/
theorem c2_exhausted_retries {α : Type} (retries retryDelay : Nat) (net : Nat → NetOutcome α)
    (hr : 1 ≤ retries)
    (hall : ∀ k, 1 ≤ k → k ≤ retries → retryableOutcome (net k)) :
    (request retries retryDelay net).calls = retries ∧
    (∀ m, net retries = .transport m →
      (request retries retryDelay net).result =
        .error { message := "Request failed after " ++ toString retries ++ " attempts: " ++ m
                 statusCode := none
                 details := none }) ∧
    (∀ s st env, net retries = .failureResponse s st env →
      (request retries retryDelay net).result = .error (mkHttpError s st env)) := by
  have h := requestFrom_exhausted retries retryDelay net (retries - 1) 1 (by omega)
    (Nat.le_refl 1) hall
  unfold request
  refine ⟨?_, ?_, ?_⟩
  · rw [h.1]
    omega
  · intro m hm
    rw [h.2, hm]
    rfl
  · intro s st env hs
    rw [h.2, hs]
    rfl

theorem c2_exhausted_retries_witness :
    (request 2 1 c2TransportNet).result =
      .error { message := "Request failed after " ++ toString 2 ++ " attempts: " ++ "ECONNREFUSED"
               statusCode := none
               details := none } :=
  (c2_exhausted_retries 2 1 c2TransportNet (by omega)
    (fun _ _ _ => trivial)).2.1 "ECONNREFUSED" rfl

/-- C6: with `retries = 3`, two transport failures followed by a
success make exactly 3 underlying network calls, return the success
payload, and wait `retryDelay * 2^(attempt-1)` before each retry. -/
theorem c6_retry_then_success {α : Type} (retryDelay : Nat) (net : Nat → NetOutcome α)
    (m1 m2 : String) (p : α)
    (h1 : net 1 = .transport m1) (h2 : net 2 = .transport m2)
    (h3 : net 3 = .successResponse p) :
    request 3 retryDelay net =
      { calls := 3
        delays := [retryDelay * 2 ^ 0, retryDelay * 2 ^ 1]
        result := .ok p } := by
  simp [request, requestFrom, h1, h2, h3, attemptResult, isClientError]

theorem c6_retry_then_success_witness :
    request 3 5 c6Net = { calls := 3, delays := [5 * 2 ^ 0, 5 * 2 ^ 1], result := .ok 42 } :=
  c6_retry_then_success 5 c6Net "e1" "e2" 42 rfl rfl rfl

/-- C7: a first attempt answered with a status in [400, 500) makes
exactly one network call, waits for nothing, and fails at once with the
client error carrying that status and the decoded envelope. -/
theorem c7_client_error_no_retry {α : Type} (retries retryDelay : Nat)
    (net : Nat → NetOutcome α) (s : Nat) (st : String) (env : ErrorResponse)
    (h4 : 400 ≤ s) (h5 : s < 500) (h1 : net 1 = .failureResponse s st env) :
    request retries retryDelay net =
      { calls := 1, delays := [], result := .error (mkHttpError s st env) } ∧
    (mkHttpError s st env).statusCode = some s ∧
    (mkHttpError s st env).details = some env := by
  have hs0 : s ≠ 0 := by omega
  refine ⟨?_, rfl, rfl⟩
  unfold request
  rw [requestFrom.eq_def, h1]
  simp [attemptResult, isClientError, mkHttpError, exhaustedError, hs0, h5]

theorem c7_client_error_no_retry_witness :
    request 3 1000 c7Net =
      { calls := 1, delays := [],
        result := .error (mkHttpError 400 "Bad Request" c7Envelope) } ∧
    (mkHttpError 400 "Bad Request" c7Envelope).statusCode = some 400 ∧
    (mkHttpError 400 "Bad Request" c7Envelope).details = some c7Envelope :=
  c7_client_error_no_retry 3 1000 c7Net 400 "Bad Request" c7Envelope
    (by omega) (by omega) rfl

/-- C8: decode maps token values positionally onto `annotations`; an
`is_`-prefixed field becomes the boolean `true` exactly on the raw
strings `"true"` and `"True"` and `false` otherwise, while every other
field keeps its raw string value. -/
theorem c8_positional_decode (response : LemmatizeResponse) (docTokens : List (List String))
    (tokenValues : List String) (i : Nat) (f v : String)
    (hdoc : docTokens ∈ response.tokens) (htv : tokenValues ∈ docTokens)
    (hnd : response.annotations.Nodup)
    (hf : response.annotations.get? i = some f) (hv : tokenValues.get? i = some v) :
    (∃ doc ∈ parseResponse response,
      parseToken response.annotations tokenValues ∈ doc.tokens) ∧
    tokGet (parseToken response.annotations tokenValues) f =
      (if startsWithStr f "is_" then Value.bool (v == "true" || v == "True")
       else Value.str v) := by
  constructor
  · refine ⟨_, List.mem_map_of_mem _ hdoc, ?_⟩
    exact List.mem_map_of_mem _ htv
  · exact tokGet_parseToken _ _ i f v hnd hf hv

theorem c8_positional_decode_witness :
    (∃ doc ∈ parseResponse c8Input,
      parseToken c8Input.annotations ["Run", "run", "true"] ∈ doc.tokens) ∧
    tokGet (parseToken c8Input.annotations ["Run", "run", "true"]) "is_stop" =
      (if startsWithStr "is_stop" "is_" then Value.bool (("true" == "true") || ("true" == "True"))
       else Value.str "true") :=
  c8_positional_decode c8Input [["Run", "run", "true"]] ["Run", "run", "true"] 2 "is_stop" "true"
    (by decide) (by decide) (by decide) (by decide) (by decide)

/-- C10: every decoded token carries the keys `text`, `lemma` and
`pos`, whatever field list the response declares (they are initialised
before the positional assignments and assignments never drop keys). -/
theorem c10_core_keys_present (response : LemmatizeResponse) (doc : Document) (t : Token)
    (hdoc : doc ∈ parseResponse response) (ht : t ∈ doc.tokens) :
    "text" ∈ tokenKeys t ∧ "lemma" ∈ tokenKeys t ∧ "pos" ∈ tokenKeys t := by
  rcases List.mem_map.mp hdoc with ⟨docTokens, _, rfl⟩
  rcases List.mem_map.mp ht with ⟨tokenValues, _, rfl⟩
  rw [parseToken_eq_foldAssign]
  refine ⟨?_, ?_, ?_⟩ <;> apply mem_tokenKeys_foldAssign <;> decide

theorem c10_core_keys_present_witness :
    "text" ∈ tokenKeys (parseToken c10Input.annotations ["walk"]) ∧
    "lemma" ∈ tokenKeys (parseToken c10Input.annotations ["walk"]) ∧
    "pos" ∈ tokenKeys (parseToken c10Input.annotations ["walk"]) :=
  c10_core_keys_present c10Input
    { tokens := [parseToken c10Input.annotations ["walk"]], text := "" }
    (parseToken c10Input.annotations ["walk"]) (by decide) (by decide)

/-- Per-document rendering: on decoded tokens the code's vertical lines
agree with the specification's. -/
theorem docLines_eq_spec (annotations : List String) (docTokens : List (List String)) :
    (docTokens.map (parseToken annotations)).map verticalLine =
      (docTokens.map (parseToken annotations)).map verticalLineSpec := by
  rw [List.map_map, List.map_map]
  apply List.map_congr_left
  intro tv _
  exact verticalLine_parseToken annotations tv

/-- C9: `toVertical` renders, for each document in order and each token
in order, one line of four tab-separated fields (text, lemma, pos or
empty, tag or empty) with exactly one blank line between consecutive
documents and none before the first or after the last; on two one-token
documents this yields exactly 3 lines with no trailing blank. -/
theorem c9_vertical_format :
    (∀ response : LemmatizeResponse, toVertical response = toVerticalSpec response) ∧
    linesOf (toVertical c9Input) = ["Hello\thello\t\t", "", "Testing\ttest\t\t"] ∧
    ("Testing\ttest\t\t" : String) ≠ "" := by
  refine ⟨?_, by decide, by decide⟩
  intro response
  unfold toVertical toVerticalSpec
  rw [verticalLines_eq_intercalate]
  have hmap : (parseResponse response).map (fun d => d.tokens.map verticalLine) =
      (parseResponse response).map (fun d => d.tokens.map verticalLineSpec) := by
    apply List.map_congr_left
    intro d hd
    rcases List.mem_map.mp hd with ⟨docTokens, _, rfl⟩
    exact docLines_eq_spec response.annotations docTokens
  rw [hmap]

/-- C1: counterexample — `toCSV` on a response with
`annotations = ["lemma", "is_stop"]` emits the header
`text,lemma,pos,is_stop`, which is not the `annotations` order (the
decode pre-initialises every token with `text`, `lemma`, `pos`, so
those keys lead the insertion order of the first token). -/
theorem c1_counterexample :
    toCSV c1Input = "text,lemma,pos,is_stop\n,run,,true" ∧
    linesOf (toCSV c1Input) = ["text,lemma,pos,is_stop", ",run,,true"] ∧
    ("text,lemma,pos,is_stop" : String) ≠ String.intercalate "," c1Input.annotations :=
  ⟨by decide, by decide, by decide⟩

/-- C1 (amended): with pairwise distinct field names and at least one
token, `toCSV`'s header row is the first token's key sequence in decode
insertion order, which is `text, lemma, pos` followed by the remaining
`annotations` in response order; every token's row is rendered in that
header order with the empty string substituted for absent or undefined
values. -/
theorem c1_csv_headers (response : LemmatizeResponse)
    (hnd : response.annotations.Nodup)
    (hne : allTokens (parseResponse response) ≠ []) :
    toCSV response =
      String.intercalate "\n"
        (String.intercalate "," (csvHeaders response.annotations) ::
          (allTokens (parseResponse response)).map
            (csvRow (csvHeaders response.annotations))) := by
  unfold toCSV
  cases h : allTokens (parseResponse response) with
  | nil => exact absurd h hne
  | cons t0 rest =>
    have ht0 : t0 ∈ allTokens (parseResponse response) := by
      rw [h]
      exact List.mem_cons_self _ _
    rcases (mem_allTokens _ _).mp ht0 with ⟨dts, hdts, tv, htv, ht0eq⟩
    have hkeys : tokenKeys t0 = csvHeaders response.annotations := by
      rw [ht0eq, tokenKeys_parseToken _ _ hnd]
      rfl
    simp only [hkeys]

theorem c1_csv_headers_witness :
    toCSV c1WitnessInput =
      String.intercalate "\n"
        (String.intercalate "," (csvHeaders c1WitnessInput.annotations) ::
          (allTokens (parseResponse c1WitnessInput)).map
            (csvRow (csvHeaders c1WitnessInput.annotations))) :=
  c1_csv_headers c1WitnessInput (by decide) (by decide)
